import Mathlib

/-!
Verification development for the brightbox-volume-device-plugin repository.

The definitions below are shallow embeddings of the Go source:
- `device_plugin.go` (volumeDevicePlugin: ListAndWatch, Allocate),
- the VolumeLister (Subscribe / Unsubscribe / Discover / informSubscribers),
- the volwatch package (VolumeWatcher: run, readAndNotify, isDirRemove,
  isDirCreate, isVolChange, enumerateVolumes, Cancel / Done / Err).

Pure helpers become Lean functions; the event loops become explicit step
functions or labelled transition relations over the loop inputs; Go channels,
contexts and wait groups are modelled by their documented semantics.
-/

/-- Entry of a directory listing, as returned by `os.ReadDir`: a name and
whether the entry is a directory (`DirEntry.Name`, `DirEntry.IsDir`). -/
structure DirEnt where
  name : String
  isDir : Bool
deriving DecidableEq, Repr

/-- The literal head of the volume pattern: the characters of `vol-`. -/
def volPat : List Char := ['v', 'o', 'l', '-']

/-- Denotation of `volRe.FindString` for `volRe = regexp.MustCompile("vol-.....$")`
on the characters of a name.  In RE2, `.` matches any character except
newline and `$` (without the `m` flag) anchors at the end of the text, so the
regex has a match in `cs` exactly when the final nine characters of `cs` are
`vol-` followed by five non-newline characters; every match has length nine
and ends at the end of the text, so the leftmost match returned by
`FindString` is that nine-character tail. -/
def volSuffixMatch (cs : List Char) : Option (List Char) :=
  let n := cs.length
  if n < 9 then none
  else
    let tail9 := cs.drop (n - 9)
    if tail9.take 4 = volPat ∧ (tail9.drop 4).all (fun c => c ≠ '\n') then
      some tail9
    else
      none

/-- `volRe.FindString(s)`: the matched substring, or `""` when there is no
match (the pattern cannot match the empty string). -/
def volReFindString (s : String) : String :=
  match volSuffixMatch s.data with
  | some cs => ⟨cs⟩
  | none => ""

/-- Embeds `enumerateVolumes` (volwatch): skip directories, keep each
`volRe.FindString` match that is non-empty, preserving listing order. -/
def enumerateVolumes (dirents : List DirEnt) : List String :=
  dirents.filterMap fun ent =>
    if ent.isDir then none
    else
      let m := volReFindString ent.name
      if m ≠ "" then some m else none

/-- Matcher following the spec claim wording only (for comparison with
`volSuffixMatch`): `vol-` followed by exactly five ALPHANUMERIC characters at
the end of the name. -/
def specAlnumSuffixMatch (cs : List Char) : Option (List Char) :=
  let n := cs.length
  if n < 9 then none
  else
    let tail9 := cs.drop (n - 9)
    if tail9.take 4 = volPat ∧ (tail9.drop 4).all (fun c => c.isAlphanum) then
      some tail9
    else
      none

/-- The watched device directory, `const deviceDir = "/dev/disk/by-id"`. -/
def deviceDir : String := "/dev/disk/by-id"

/-- Embeds `IDDevicePath` (volwatch): `filepath.Join(deviceDir, target)`,
restricted to non-empty relative targets, for which Join is concatenation
with a separator. -/
def IDDevicePath (target : String) : String :=
  deviceDir ++ "/" ++ target

/-- Models Go `path.Dir` restricted to already-clean paths: everything before
the final `/`, with `"."` for a bare name and `"/"` for a root-level entry. -/
def pathDir (s : String) : String :=
  match (s.data.reverse.dropWhile (fun c => c ≠ '/')) with
  | [] => "."
  | ['/'] => "/"
  | '/' :: rest => ⟨rest.reverse⟩
  | c :: rest => ⟨(c :: rest).reverse⟩

/-- Device health entry of a `ListAndWatchResponse`: `pluginapi.Device` with
its `ID` and whether `Health` is `pluginapi.Healthy`. -/
structure Device where
  id : String
  healthy : Bool
deriving DecidableEq, Repr

/-- `pluginapi.DeviceSpec`: container path, host path and permission string. -/
structure DeviceSpec where
  containerPath : String
  hostPath : String
  permissions : String
deriving DecidableEq, Repr

/-- `pluginapi.ContainerAllocateResponse`, keeping the `Devices` field. -/
structure ContainerAllocateResponse where
  devices : List DeviceSpec
deriving DecidableEq, Repr

/-- `pluginapi.AllocateResponse`, keeping the `ContainerResponses` field. -/
structure AllocateResponse where
  containerResponses : List ContainerAllocateResponse
deriving DecidableEq, Repr

/-- Embeds `volumeDevicePlugin.Allocate` (device_plugin.go): the request (a
list of container requests, each a list of device identifiers) is only
logged; the returned response always holds exactly one empty
`ContainerAllocateResponse`. -/
def Allocate (request : List (List String)) : AllocateResponse :=
  { containerResponses := [{ devices := [] }] }

/-- Predicate following the spec claim wording only (for comparison with
`Allocate`): for each requested identifier the response contains a
device spec granting `"rw"` on the identifier's symlink path under the
watched directory and on its resolved real device path, where `resolve` is the
external symlink resolution. -/
def specAllocateGrantsRW (resolve : String → String) (request : List (List String))
    (resp : AllocateResponse) : Prop :=
  ∀ creq ∈ request, ∀ id ∈ creq,
    ∃ cresp ∈ resp.containerResponses,
      (∃ d ∈ cresp.devices,
        d.containerPath = IDDevicePath id ∧ d.hostPath = IDDevicePath id ∧
          d.permissions = "rw") ∧
      (∃ d ∈ cresp.devices,
        d.containerPath = resolve (IDDevicePath id) ∧
          d.hostPath = resolve (IDDevicePath id) ∧ d.permissions = "rw")

/-- Result of the `os.ReadDir` call inside `readAndNotify`: a listing, the
`os.ErrNotExist` case, or any other error. -/
inductive ReadResult where
  | ok (listing : List DirEnt)
  | notExist
  | failed
deriving DecidableEq, Repr

/-- The `fsnotify.Op` bits tested by the code via `event.Has`: whether the
Create bit and whether the Remove bit is set. -/
structure FsOp where
  create : Bool
  remove : Bool
deriving DecidableEq, Repr

/-- An `fsnotify.Event`: affected path name and operation bits. -/
structure FsEvent where
  name : String
  op : FsOp
deriving DecidableEq, Repr

/-- Embeds `isDirRemove` (volwatch): `event.Has(Remove) && event.Name == targetDir`. -/
def isDirRemove (event : FsEvent) (targetDir : String) : Bool :=
  event.op.remove && event.name == targetDir

/-- Embeds `isDirCreate` (volwatch): `event.Has(Create) && event.Name == targetDir`. -/
def isDirCreate (event : FsEvent) (targetDir : String) : Bool :=
  event.op.create && event.name == targetDir

/-- Embeds `isVolChange` (volwatch): `(event.Has(Create) || event.Has(Remove))
&& path.Dir(event.Name) == targetDir`. -/
def isVolChange (event : FsEvent) (targetDir : String) : Bool :=
  (event.op.create || event.op.remove) && (pathDir event.name == targetDir)

/-- One input consumed by one iteration of the select loop in
`VolumeWatcher.run`: a value on `watch.Errors`, the `ctx.Done` branch firing,
the events channel being closed (`ok == false`), or an `fsnotify` event.  An
event input carries the environment's answers used if the handler performs
them: whether a `watch.Add(watchDir)` call succeeds and what `os.ReadDir`
returns inside `readAndNotify`. -/
inductive RunInput where
  | errors
  | ctxDone
  | closed
  | ev (event : FsEvent) (addOk : Bool) (read : ReadResult)
deriving DecidableEq, Repr

/-- Observable action of `VolumeWatcher.run`: a snapshot pushed on
`vw.events`, a call of `vw.cancel()`, or the run routine returning. -/
inductive RunAction where
  | emit (vols : List String)
  | cancel
  | ret
deriving DecidableEq, Repr

/-- Embeds `readAndNotify` (volwatch): on a successful `os.ReadDir` push
`enumerateVolumes(files)` on the events channel; on `os.ErrNotExist` only
log; on any other error `warnAndCancel`. -/
def readAndNotifyActs (read : ReadResult) : List RunAction :=
  match read with
  | .ok listing => [.emit (enumerateVolumes listing)]
  | .notExist => []
  | .failed => [.cancel]

/-- One iteration of the select loop of `VolumeWatcher.run` (volwatch, final
version): given the cancellation state, handle one input and give the emitted
actions plus whether the routine returns.  `watch.Errors` values and a closed
events channel go through `warnAndCancel`; a remove of the watch directory is
only logged; a remove of the base (parent) directory cancels; a create of the
watch directory re-adds the watch (cancelling when the add fails) and
re-enumerates; a create/remove inside the watch directory re-enumerates;
everything else is ignored.  The `ctx.Done` branch (which returns) can only
fire when the context has been cancelled. -/
def runStep (watchDir baseDir : String) (cancelled : Bool) :
    RunInput → List RunAction × Bool
  | .errors => ([.cancel], false)
  | .ctxDone => if cancelled then ([.ret], true) else ([], false)
  | .closed => ([.cancel], false)
  | .ev event addOk read =>
    if isDirRemove event watchDir then ([], false)
    else if isDirRemove event baseDir then ([.cancel], false)
    else if isDirCreate event watchDir then
      if addOk then (readAndNotifyActs read, false) else ([.cancel], false)
    else if isVolChange event watchDir then (readAndNotifyActs read, false)
    else ([], false)

/-- The select loop of `VolumeWatcher.run` folded over a list of inputs,
tracking the context's cancellation state (set by any emitted `cancel`
action) and stopping when an iteration returns. -/
def runLoop (watchDir baseDir : String) : Bool → List RunInput → List RunAction
  | _, [] => []
  | cancelled, i :: rest =>
    let out := runStep watchDir baseDir cancelled i
    out.1 ++
      if out.2 then []
      else runLoop watchDir baseDir (cancelled || out.1.contains .cancel) rest

/-- Embeds `VolumeWatcher.run` (volwatch, final version) as a function of the
environment: whether the initial `watch.Add(baseDir)` and
`watch.Add(watchDir)` calls succeed, the initial `os.ReadDir` result used
when the watch directory is present, and the sequence of select-loop inputs.
When adding the base directory fails the routine warns, cancels and returns;
when adding the watch directory fails it only logs `Watch Directory is
missing - awaiting create` and enters the loop without emitting anything. -/
def runModel (watchDir : String) (addBaseOk addWatchOk : Bool)
    (initRead : ReadResult) (inputs : List RunInput) : List RunAction :=
  let baseDir := pathDir watchDir
  if !addBaseOk then [.cancel, .ret]
  else
    let initActs := if addWatchOk then readAndNotifyActs initRead else []
    initActs ++ runLoop watchDir baseDir (initActs.contains .cancel) inputs

/-- The snapshots pushed on the events channel during a run. -/
def emits (acts : List RunAction) : List (List String) :=
  acts.filterMap fun a =>
    match a with
    | .emit vols => some vols
    | _ => none

/-- The `os.ReadDir` answer carried by a select-loop input, if any. -/
def readOfInput : RunInput → Option ReadResult
  | .ev _ _ read => some read
  | _ => none

/-- One input consumed by one iteration of the select loop in
`VolumeLister.Discover`: the watcher's `Done` channel firing, a received
watcher event, or the events channel being closed (`ok == false`). -/
inductive DiscInput where
  | done
  | ev (vols : List String)
  | closed
deriving DecidableEq, Repr

/-- Embeds the pushes of `VolumeLister.Discover` to the plugin manager's
channel: each received event's volume list is pushed verbatim (after the
subscribers are informed); a closed events channel is only logged; `Done`
ends the loop. -/
def discoverPushes : List DiscInput → List (List String)
  | [] => []
  | .done :: _ => []
  | .closed :: rest => discoverPushes rest
  | .ev vols :: rest => vols :: discoverPushes rest

/-- A `Completion` value (lister): the volume list plus the acknowledgment
function; `acks` records whether the Go `CompleteFunc` field holds a defined
(non-nil) function value.  The zero value of the Go struct, received from a
closed channel, has a nil function. -/
structure Completion where
  volumes : List String
  acks : Bool
deriving DecidableEq, Repr

/-- The zero value of the Go `Completion` struct: nil `Volumes` slice and
nil `CompleteFunc`. -/
def zeroCompletion : Completion := { volumes := [], acks := false }

/-- One input consumed by one iteration of the select loop in
`volumeDevicePlugin.ListAndWatch`: the lister's `Done` channel firing, or a
receive on `volumeUpdate` (`some c` when `ok` is true, `none` when the
channel is closed and the zero value is delivered).  `sendOk` is the
environment's answer for the `srv.Send` call performed on that branch, if
one happens. -/
inductive LWInput where
  | done (sendOk : Bool)
  | update (c : Option Completion) (sendOk : Bool)
deriving DecidableEq, Repr

/-- Observable action of `ListAndWatch`: a `srv.Send` of a device list, an
invocation of `completion.CompleteFunc` (recording whether the invoked
function value is defined), `Subscribe`/`Unsubscribe` on the lister, and the
routine returning nil or a non-nil error. -/
inductive LWAction where
  | send (devices : List Device)
  | callAck (defined : Bool)
  | sub (id : String)
  | unsub (id : String)
  | retNil
  | retErr
deriving DecidableEq, Repr

/-- The `volPresent` response body: one device entry with the session's own
identifier, healthy. -/
def volPresent (volumeID : String) : List Device := [{ id := volumeID, healthy := true }]

/-- The `volMissing` response body: the empty device list. -/
def volMissing : List Device := []

/-- The select loop of `ListAndWatch` (device_plugin.go).  On `Done`: send
`volMissing`, then return `volLister.Err()` — non-nil, since `Done` fires
only after cancellation — or the send error; either way a non-nil error, with
the deferred `Unsubscribe` running first.  On an update: when `ok` holds and
the volume list contains the session's identifier, acknowledge and keep
waiting; otherwise send `volMissing`, acknowledge, and return the send error
or nil.  Acknowledging invokes `completion.CompleteFunc` on the received
value, the zero value when the channel was closed. -/
def lwLoop (volumeID : String) : List LWInput → List LWAction
  | [] => []
  | .done _ :: _ =>
    [.send volMissing, .unsub volumeID, .retErr]
  | .update c sendOk :: rest =>
    let comp := c.getD zeroCompletion
    if c.isSome && comp.volumes.contains volumeID then
      .callAck comp.acks :: lwLoop volumeID rest
    else
      [.send volMissing, .callAck comp.acks, .unsub volumeID,
        if sendOk then .retNil else .retErr]

/-- Embeds `volumeDevicePlugin.ListAndWatch` (device_plugin.go): send the
`volPresent` entry (returning its error when the send fails, before any
subscription), subscribe under the session's own identifier with the
unsubscribe deferred, then run the update loop. -/
def ListAndWatch (volumeID : String) (presentSendOk : Bool)
    (inputs : List LWInput) : List LWAction :=
  if presentSendOk then
    .send (volPresent volumeID) :: .sub volumeID :: lwLoop volumeID inputs
  else
    [.send (volPresent volumeID), .retErr]

/-- Whether a `ListAndWatch` action is a send of the empty device list. -/
def isEmptySend (a : LWAction) : Bool :=
  a == .send volMissing

/-- Whether a `ListAndWatch` action is a send of the one-entry healthy
presence list for `volumeID`. -/
def isPresentSend (volumeID : String) (a : LWAction) : Bool :=
  a == .send (volPresent volumeID)

/-- The state backing `VolumeWatcher.Cancel/Done/Err`: a
`context.WithCancel` context, which is either still live or cancelled. -/
structure WatcherCtx where
  cancelled : Bool
deriving DecidableEq, Repr

/-- The fresh context created by `NewWatchDir`. -/
def newWatcherCtx : WatcherCtx := { cancelled := false }

/-- Embeds `VolumeWatcher.Cancel`: invokes the context's cancel function,
moving the context to the cancelled state (idempotently). -/
def Cancel (_ : WatcherCtx) : WatcherCtx := { cancelled := true }

/-- A cancellation-kind error: `context.Canceled`, returned by `ctx.Err()`
after the context is cancelled. -/
inductive CtxError where
  | canceled
deriving DecidableEq, Repr

/-- Embeds `VolumeWatcher.Err`, i.e. `ctx.Err()`: nil while live,
`context.Canceled` once cancelled. -/
def Err (w : WatcherCtx) : Option CtxError :=
  if w.cancelled then some .canceled else none

/-- Embeds `VolumeWatcher.Done`, i.e. `ctx.Done()`: whether the done channel
is closed, which happens exactly when the context is cancelled. -/
def doneClosed (w : WatcherCtx) : Bool := w.cancelled

/-- An operation applied to the watcher after creation: a `Cancel` call or a
(state-preserving) query of `Done` or `Err`. -/
inductive CtxOp where
  | cancelOp
  | queryDone
  | queryErr
deriving DecidableEq, Repr

/-- Effect of one watcher operation on the context state. -/
def applyCtxOp (w : WatcherCtx) : CtxOp → WatcherCtx
  | .cancelOp => Cancel w
  | .queryDone => w
  | .queryErr => w

/-- The context state after a sequence of watcher operations. -/
def applyCtxOps (w : WatcherCtx) (ops : List CtxOp) : WatcherCtx :=
  ops.foldl applyCtxOp w

/-- Number of operations in the sequence at which the done channel passes
from open to closed. -/
def closeTransitions : WatcherCtx → List CtxOp → Nat
  | _, [] => 0
  | w, op :: rest =>
    let w' := applyCtxOp w op
    (if doneClosed w' && !doneClosed w then 1 else 0) + closeTransitions w' rest

/-- The subscriber registry of the lister: the `eventmap` from subscriber key
to endpoint, embedded as an association list (endpoints abstracted to `Nat`
channel identities).  Go map semantics: at most one entry per key, assignment
replaces, delete removes. -/
def Eventmap := List (String × Nat)

/-- Embeds `vl.eventmap[index] = channel` (the body of `Subscribe`): replace
the entry for the key when present, otherwise add one. -/
def mapSet : List (String × Nat) → String → Nat → List (String × Nat)
  | [], k, v => [(k, v)]
  | p :: rest, k, v =>
    if p.1 = k then (k, v) :: rest else p :: mapSet rest k v

/-- Embeds `delete(vl.eventmap, index)` (the body of `Unsubscribe`): remove
the entry for the key. -/
def mapDelete : List (String × Nat) → String → List (String × Nat)
  | [], _ => []
  | p :: rest, k =>
    if p.1 = k then mapDelete rest k else p :: mapDelete rest k

/-- Go map read `vl.eventmap[index]`: the endpoint registered for a key. -/
def mapLookup : List (String × Nat) → String → Option Nat
  | [], _ => none
  | p :: rest, k => if p.1 = k then some p.2 else mapLookup rest k

/-- `maps.Values(vl.eventmap)`, as read by `informSubscribers`. -/
def mapValues (m : List (String × Nat)) : List Nat := m.map Prod.snd

/-- An operation on the lister registry: `Subscribe`, `Unsubscribe`, or a
broadcast (`informSubscribers`, which only reads the map). -/
inductive RegOp where
  | subscribeOp (k : String) (ch : Nat)
  | unsubscribeOp (k : String)
  | broadcastOp
deriving DecidableEq, Repr

/-- Effect of one registry operation on the `eventmap`. -/
def applyRegOp (m : List (String × Nat)) : RegOp → List (String × Nat)
  | .subscribeOp k ch => mapSet m k ch
  | .unsubscribeOp k => mapDelete m k
  | .broadcastOp => m

/-- The registry state reached from the empty map created by `NewLister`
after a sequence of operations; every reachable state has this form. -/
def regState (ops : List RegOp) : List (String × Nat) :=
  ops.foldl applyRegOp []

/-- Label of one atomic step of the broadcast pipeline built from
`Discover` + `informSubscribers` (lister): beginning a broadcast of snapshot
`n` to the `subs` channels read under the read lock, one completed channel
send (preceded by its `wg.Add(1)`), one skipped delivery (the per-subscriber
select saw the watcher's `Done` channel closed), one acknowledgment
(`wg.Done`, via the delivered `CompleteFunc`), the return of
`informSubscribers` after `wg.Wait`, and a cancellation of the watcher. -/
inductive BLabel where
  | start (n : Nat) (subs : Nat)
  | dispatch (n : Nat)
  | skip (n : Nat)
  | ack (n : Nat)
  | finish (n : Nat)
  | cancel
deriving DecidableEq, Repr

/-- State of the broadcast pipeline: index of the snapshot currently (or
next) being broadcast, deliveries not yet dispatched in the current
broadcast, the `WaitGroup` counter (dispatched but unacknowledged
deliveries), whether an `informSubscribers` call is in progress, and whether
the watcher has been cancelled. -/
structure BState where
  snap : Nat
  remaining : Nat
  pending : Nat
  inBcast : Bool
  cancelled : Bool
deriving DecidableEq, Repr

/-- The pipeline state when `Discover` starts: no broadcast in progress. -/
def bInit : BState :=
  { snap := 0, remaining := 0, pending := 0, inBcast := false, cancelled := false }

/-- One atomic step of the broadcast pipeline.  `Discover` processes
snapshots sequentially, so a broadcast of the next snapshot can only start
when none is in progress; `informSubscribers` dispatches to each channel in
turn — skipping the rest once the watcher is done — while acknowledgments
(`wg.Done`) arrive concurrently whenever the `WaitGroup` counter is
positive; `wg.Wait` lets the broadcast finish only when every dispatched
delivery has been acknowledged. -/
inductive BStep : BState → BLabel → BState → Prop where
  | start (s : BState) (k : Nat) (h : s.inBcast = false) :
      BStep s (.start s.snap k) { s with remaining := k, inBcast := true }
  | dispatch (s : BState) (hin : s.inBcast = true) (hr : 0 < s.remaining)
      (hc : s.cancelled = false) :
      BStep s (.dispatch s.snap)
        { s with remaining := s.remaining - 1, pending := s.pending + 1 }
  | skip (s : BState) (hin : s.inBcast = true) (hr : 0 < s.remaining)
      (hc : s.cancelled = true) :
      BStep s (.skip s.snap) { s with remaining := s.remaining - 1 }
  | ack (s : BState) (hp : 0 < s.pending) :
      BStep s (.ack s.snap) { s with pending := s.pending - 1 }
  | finish (s : BState) (hin : s.inBcast = true) (hr : s.remaining = 0)
      (hp : s.pending = 0) :
      BStep s (.finish s.snap) { s with inBcast := false, snap := s.snap + 1 }
  | cancel (s : BState) :
      BStep s .cancel { s with cancelled := true }

/-- Executions of the broadcast pipeline: `BExec t s` holds when the pipeline
can run the labelled trace `t` from the initial state and end in state `s`. -/
inductive BExec : List BLabel → BState → Prop where
  | init : BExec [] bInit
  | step (t : List BLabel) (s : BState) (l : BLabel) (s' : BState) :
      BExec t s → BStep s l s' → BExec (t ++ [l]) s'

/-- Number of dispatched deliveries of snapshot `n` in a trace. -/
def dispatchCount (n : Nat) (t : List BLabel) : Nat :=
  t.countP (fun l => l == .dispatch n)

/-- Number of acknowledgments of snapshot `n` in a trace. -/
def ackCount (n : Nat) (t : List BLabel) : Nat :=
  t.countP (fun l => l == .ack n)

/-- Whether a select-loop input carries no successful directory listing;
while the watched directory is absent every `os.ReadDir` attempt fails, so
all inputs of such a run satisfy this. -/
def readNotOk : RunInput → Bool
  | .ev _ _ (.ok _) => false
  | _ => true

/-- `emits` distributes over concatenation of action lists. -/
theorem emits_append (a b : List RunAction) : emits (a ++ b) = emits a ++ emits b := by
  simp [emits, List.filterMap_append]

/-- A lone `cancel` action pushes no snapshot. -/
theorem emits_cancel : emits [RunAction.cancel] = [] := rfl

/-- A lone `ret` action pushes no snapshot. -/
theorem emits_ret : emits [RunAction.ret] = [] := rfl

/-- The empty action list pushes no snapshot. -/
theorem emits_nil : emits [] = [] := rfl

/-- A leading `cancel` action contributes no snapshot. -/
theorem emits_cons_cancel (acts : List RunAction) :
    emits (RunAction.cancel :: acts) = emits acts := rfl

/-- A leading `ret` action contributes no snapshot. -/
theorem emits_cons_ret (acts : List RunAction) :
    emits (RunAction.ret :: acts) = emits acts := rfl

/-- Helper for C2: the select loop of `run` never pushes a snapshot when no
input carries a successful directory listing, whatever the cancellation
state. -/
theorem runLoop_emits_nil (wd bd : String) (inputs : List RunInput) :
    ∀ cancelled : Bool, inputs.all readNotOk = true →
      emits (runLoop wd bd cancelled inputs) = [] := by
  induction inputs with
  | nil => intro _ _; rfl
  | cons i rest ih =>
    intro cancelled hall
    rw [List.all_cons, Bool.and_eq_true] at hall
    obtain ⟨hi, hrest⟩ := hall
    cases i with
    | errors => simp [runLoop, runStep, emits_append, emits_cancel, emits_ret, emits_nil, emits_cons_cancel, emits_cons_ret, ih _ hrest]
    | ctxDone =>
      cases cancelled <;> simp [runLoop, runStep, emits_append, emits_cancel, emits_ret, emits_nil, emits_cons_cancel, emits_cons_ret, ih _ hrest]
    | closed => simp [runLoop, runStep, emits_append, emits_cancel, emits_ret, emits_nil, emits_cons_cancel, emits_cons_ret, ih _ hrest]
    | ev e addOk read =>
      cases read with
      | ok listing => simp [readNotOk] at hi
      | notExist =>
        simp only [runLoop, runStep, readAndNotifyActs]
        repeat' split
        all_goals simp [emits_append, emits_cancel, emits_ret, emits_nil, emits_cons_cancel, emits_cons_ret, ih _ hrest]
      | failed =>
        simp only [runLoop, runStep, readAndNotifyActs]
        repeat' split
        all_goals simp [emits_append, emits_cancel, emits_ret, emits_nil, emits_cons_cancel, emits_cons_ret, ih _ hrest]

/-- C1 counterexample: the claim fails on the code.  For the concrete
request naming device identifier `vol-abcde` (with symlink resolution taken
as any function, here the identity), the response returned by `Allocate`
contains no device specification at all, hence none granting `"rw"` access
to the identifier's symlink path and its resolved path. -/
theorem allocate_no_rw_device_specs_cex :
    ¬ specAllocateGrantsRW (fun p => p) [["vol-abcde"]] (Allocate [["vol-abcde"]]) := by
  intro h
  rcases h ["vol-abcde"] (by simp) "vol-abcde" (by simp) with ⟨cresp, hmem, ⟨d, hd, _⟩, _⟩
  simp [Allocate] at hmem
  subst hmem
  simp at hd

/-- C1 (amended): every Allocate call returns a response consisting of
exactly one container response that carries no device specifications,
regardless of the requested device identifiers. -/
theorem allocate_single_empty_container_response (request : List (List String)) :
    Allocate request = { containerResponses := [{ devices := [] }] } := rfl

/-- C2 counterexample: the claim fails on the code.  When the watched
directory is absent at process start (the initial `watch.Add` of the watch
directory fails), the run emits no snapshot at all — so discovery pushes no
empty resource-name list; and when the directory is removed while being
watched, the remove event for the watch directory itself produces no further
emission (only the initial enumeration's push is in the trace). -/
theorem discovery_absent_no_empty_push_cex :
    emits (runModel deviceDir true false ReadResult.notExist []) = [] ∧
    emits (runModel deviceDir true true (ReadResult.ok [])
      [RunInput.ev ⟨deviceDir, ⟨false, true⟩⟩ true ReadResult.notExist]) = [[]] := by
  constructor
  · rfl
  · rfl

/-- C2 (amended): while the watched directory is absent nothing is pushed:
a run that starts with the watch directory missing and in which no
`os.ReadDir` ever succeeds emits no snapshot, so discovery pushes no list
to the lifecycle manager's channel until a successful enumeration occurs. -/
theorem run_absent_pushes_nothing (inputs : List RunInput)
    (h : inputs.all readNotOk = true) :
    emits (runModel deviceDir true false ReadResult.notExist inputs) = [] := by
  have hl := runLoop_emits_nil deviceDir (pathDir deviceDir) inputs false h
  simpa [runModel, emits_append] using hl

/-- C2 witness: the amended theorem applied to the concrete run where the
absent watch directory is removed-and-ignored once more and never appears. -/
theorem run_absent_pushes_nothing_witness :
    emits (runModel deviceDir true false ReadResult.notExist
      [RunInput.ev ⟨deviceDir, ⟨false, true⟩⟩ true ReadResult.notExist]) = [] :=
  run_absent_pushes_nothing
    [RunInput.ev ⟨deviceDir, ⟨false, true⟩⟩ true ReadResult.notExist] (by decide)

/-- C3 counterexample: the claim fails on the code.  In the run where the
watched directory starts empty and the file `vol-abcde` is then created
inside it, the watcher emits `[]` followed by `["vol-abcde"]`, and discovery
pushes those lists verbatim — the list emitted after the creation is
`["vol-abcde"]`, not `["abcde"]`: the identifier is not translated to a
shorter resource name. -/
theorem discovery_vol_abcde_pushed_verbatim_cex :
    emits (runModel deviceDir true true (ReadResult.ok [])
      [RunInput.ev ⟨IDDevicePath "vol-abcde", ⟨true, false⟩⟩ true
        (ReadResult.ok [⟨"vol-abcde", false⟩])]) = [[], ["vol-abcde"]] ∧
    discoverPushes [DiscInput.ev [], DiscInput.ev ["vol-abcde"]] = [[], ["vol-abcde"]] ∧
    (["vol-abcde"] : List String) ≠ ["abcde"] := by
  refine ⟨rfl, rfl, ?_⟩
  decide

/-- C3 (amended): when a file named `vol-abcde` is created inside the
watched directory, the next list emitted by discovery is `["vol-abcde"]`:
`Discover` pushes each received VolumeIdentifier list verbatim to the
lifecycle manager's channel, with no translation of identifiers. -/
theorem discover_forwards_volume_ids_verbatim (vols : List String)
    (rest : List DiscInput) :
    discoverPushes (DiscInput.ev vols :: rest) = vols :: discoverPushes rest ∧
    emits (runModel deviceDir true true (ReadResult.ok [])
      [RunInput.ev ⟨IDDevicePath "vol-abcde", ⟨true, false⟩⟩ true
        (ReadResult.ok [⟨"vol-abcde", false⟩])]) = [[], ["vol-abcde"]] :=
  ⟨rfl, rfl⟩

/-- C6 counterexample: the claim fails on the code.  With the watched
directory present, a remove event matching the parent (base) directory does
not move the watcher to a recoverable absent state: it cancels the watcher
(`vw.cancel()` is called). -/
theorem parent_remove_cancels_watcher_cex :
    RunAction.cancel ∈ runModel deviceDir true true (ReadResult.ok [])
      [RunInput.ev ⟨pathDir deviceDir, ⟨false, true⟩⟩ true (ReadResult.ok [])] := by
  decide

/-- C6 (amended): a remove event matching the watched path itself is benign
— the loop neither emits nor cancels, and a later create event for the
watched path re-adds the watch and re-enumerates (recovery via the parent
watch); but a remove event matching the parent directory cancels the
watcher. -/
theorem dir_remove_benign_parent_remove_cancels (cancelled addOk : Bool)
    (read : ReadResult) (listing : List DirEnt) :
    runStep deviceDir (pathDir deviceDir) cancelled
        (RunInput.ev ⟨deviceDir, ⟨false, true⟩⟩ addOk read) = ([], false) ∧
    runStep deviceDir (pathDir deviceDir) cancelled
        (RunInput.ev ⟨pathDir deviceDir, ⟨false, true⟩⟩ addOk read) =
      ([RunAction.cancel], false) ∧
    runStep deviceDir (pathDir deviceDir) cancelled
        (RunInput.ev ⟨deviceDir, ⟨true, false⟩⟩ true (ReadResult.ok listing)) =
      ([RunAction.emit (enumerateVolumes listing)], false) :=
  ⟨rfl, rfl, rfl⟩

/-- C10: on the `ListAndWatch` path where the receive from the update
channel finds the channel closed (`ok == false`), the received `Completion`
is the zero value, and the acknowledgment invoked after the send is its
`CompleteFunc` — a nil function value (`callAck false` below), whose
invocation faults.  This exhibits the failing path of the claim. -/
theorem listAndWatch_closed_channel_invokes_nil_ack :
    ListAndWatch "vol-abcde" true [LWInput.update none true] =
      [LWAction.send (volPresent "vol-abcde"), LWAction.sub "vol-abcde",
        LWAction.send volMissing, LWAction.callAck false,
        LWAction.unsub "vol-abcde", LWAction.retNil] := rfl

/-- Cancellation is absorbing: the context state after a sequence of
operations is cancelled exactly when it already was or some operation in the
sequence is a `Cancel` call. -/
theorem applyCtxOps_cancelled (ops : List CtxOp) :
    ∀ w : WatcherCtx, (applyCtxOps w ops).cancelled =
      (w.cancelled || ops.any (fun op => op == CtxOp.cancelOp)) := by
  induction ops with
  | nil => intro w; simp [applyCtxOps]
  | cons op rest ih =>
    intro w
    cases op with
    | cancelOp =>
      simp [applyCtxOps, applyCtxOp, Cancel, List.any_cons,
        (by decide : (CtxOp.cancelOp == CtxOp.cancelOp) = true)] at *
      simp [ih]
    | queryDone =>
      simp [applyCtxOps, applyCtxOp, List.any_cons,
        (by decide : (CtxOp.queryDone == CtxOp.cancelOp) = false)] at *
      simp [ih]
    | queryErr =>
      simp [applyCtxOps, applyCtxOp, List.any_cons,
        (by decide : (CtxOp.queryErr == CtxOp.cancelOp) = false)] at *
      simp [ih]

/-- Once the context is cancelled, the done channel never closes again. -/
theorem closeTransitions_cancelled (ops : List CtxOp) :
    ∀ w : WatcherCtx, w.cancelled = true → closeTransitions w ops = 0 := by
  induction ops with
  | nil => intro w _; rfl
  | cons op rest ih =>
    intro w hw
    cases op with
    | cancelOp =>
      simp [closeTransitions, applyCtxOp, Cancel, doneClosed, hw, ih _ rfl]
    | queryDone => simp [closeTransitions, applyCtxOp, doneClosed, hw, ih _ hw]
    | queryErr => simp [closeTransitions, applyCtxOp, doneClosed, hw, ih _ hw]

/-- From a live context, the done channel closes exactly once when the
sequence holds a `Cancel` call and never otherwise. -/
theorem closeTransitions_live (ops : List CtxOp) :
    closeTransitions { cancelled := false } ops =
      (if ops.any (fun op => op == CtxOp.cancelOp) then 1 else 0) := by
  induction ops with
  | nil => rfl
  | cons op rest ih =>
    cases op with
    | cancelOp =>
      simp [closeTransitions, applyCtxOp, Cancel, doneClosed,
        closeTransitions_cancelled rest { cancelled := true } rfl]
    | queryDone => simpa [closeTransitions, applyCtxOp, doneClosed] using ih
    | queryErr => simpa [closeTransitions, applyCtxOp, doneClosed] using ih

/-- C7: after `Cancel()` is called on the watcher — anywhere in the
operation sequence applied to the fresh context — the `Done()` channel is
closed, it was closed exactly once along the whole sequence, and `Err()`
returns the cancellation error `context.Canceled` at every point from then
on. -/
theorem cancel_closes_done_once_err_canceled (pre post : List CtxOp) :
    doneClosed (applyCtxOps newWatcherCtx (pre ++ CtxOp.cancelOp :: post)) = true ∧
    Err (applyCtxOps newWatcherCtx (pre ++ CtxOp.cancelOp :: post)) =
      some CtxError.canceled ∧
    closeTransitions newWatcherCtx (pre ++ CtxOp.cancelOp :: post) = 1 := by
  have hc : (applyCtxOps newWatcherCtx (pre ++ CtxOp.cancelOp :: post)).cancelled = true := by
    rw [applyCtxOps_cancelled]
    simp [newWatcherCtx]
  refine ⟨hc, ?_, ?_⟩
  · simp [Err, hc]
  · rw [show newWatcherCtx = { cancelled := false } from rfl, closeTransitions_live]
    simp

/-- Writing an already-registered key leaves the key list unchanged. -/
theorem keys_mapSet_present (k : String) (v : Nat) :
    ∀ m : List (String × Nat), k ∈ m.map Prod.fst →
      (mapSet m k v).map Prod.fst = m.map Prod.fst := by
  intro m
  induction m with
  | nil => intro hmem; simp at hmem
  | cons p rest ih =>
    intro hmem
    by_cases hp : p.1 = k
    · simp only [mapSet, if_pos hp, List.map_cons]
      rw [hp]
    · have hk : k ∈ rest.map Prod.fst := by
        rcases List.mem_cons.mp hmem with he | he
        · exact absurd he.symm hp
        · exact he
      simp only [mapSet, if_neg hp, List.map_cons, ih hk]

/-- Writing a fresh key appends it to the key list. -/
theorem keys_mapSet_absent (k : String) (v : Nat) :
    ∀ m : List (String × Nat), k ∉ m.map Prod.fst →
      (mapSet m k v).map Prod.fst = m.map Prod.fst ++ [k] := by
  intro m
  induction m with
  | nil => intro _; rfl
  | cons p rest ih =>
    intro hmem
    have hp : p.1 ≠ k := fun he => hmem (by simp [he])
    have hk : k ∉ rest.map Prod.fst := fun hc => hmem (by simp [hc])
    simp only [mapSet, if_neg hp, List.map_cons, ih hk, List.cons_append]

/-- `mapSet` preserves key uniqueness. -/
theorem nodup_keys_mapSet (m : List (String × Nat)) (k : String) (v : Nat)
    (h : (m.map Prod.fst).Nodup) : ((mapSet m k v).map Prod.fst).Nodup := by
  by_cases hk : k ∈ m.map Prod.fst
  · rw [keys_mapSet_present k v m hk]; exact h
  · rw [keys_mapSet_absent k v m hk]
    refine List.Nodup.append h (List.nodup_singleton k) ?_
    intro x hx hx'
    rcases List.mem_singleton.mp hx' with rfl
    exact hk hx

/-- Deleting a key yields a sublist of the original key list. -/
theorem keys_mapDelete_sublist (k : String) :
    ∀ m : List (String × Nat),
      List.Sublist ((mapDelete m k).map Prod.fst) (m.map Prod.fst) := by
  intro m
  induction m with
  | nil => exact List.Sublist.refl _
  | cons p rest ih =>
    by_cases hp : p.1 = k
    · simp only [mapDelete, if_pos hp, List.map_cons]
      exact ih.trans (List.sublist_cons_self p.1 (rest.map Prod.fst))
    · simp only [mapDelete, if_neg hp, List.map_cons]
      exact List.Sublist.cons₂ p.1 ih

/-- `mapDelete` preserves key uniqueness. -/
theorem nodup_keys_mapDelete (m : List (String × Nat)) (k : String)
    (h : (m.map Prod.fst).Nodup) : ((mapDelete m k).map Prod.fst).Nodup :=
  h.sublist (keys_mapDelete_sublist k m)

/-- Every registry operation preserves key uniqueness. -/
theorem nodup_keys_applyRegOp (m : List (String × Nat)) (op : RegOp)
    (h : (m.map Prod.fst).Nodup) : ((applyRegOp m op).map Prod.fst).Nodup := by
  cases op with
  | subscribeOp k ch => exact nodup_keys_mapSet m k ch h
  | unsubscribeOp k => exact nodup_keys_mapDelete m k h
  | broadcastOp => exact h

/-- Every reachable registry state has pairwise-distinct keys. -/
theorem nodup_keys_regState (ops : List RegOp) :
    ((regState ops).map Prod.fst).Nodup := by
  suffices hgen : ∀ m : List (String × Nat), (m.map Prod.fst).Nodup →
      ((ops.foldl applyRegOp m).map Prod.fst).Nodup from hgen [] (by simp)
  induction ops with
  | nil => intro m hm; simpa using hm
  | cons op rest ih =>
    intro m hm
    exact ih (applyRegOp m op) (nodup_keys_applyRegOp m op hm)

/-- Writing a key makes it map to the written endpoint. -/
theorem mapLookup_mapSet_self (m : List (String × Nat)) (k : String) (v : Nat) :
    mapLookup (mapSet m k v) k = some v := by
  induction m with
  | nil => simp [mapSet, mapLookup]
  | cons p rest ih =>
    by_cases hp : p.1 = k
    · simp [mapSet, hp, mapLookup]
    · simp [mapSet, hp, mapLookup, ih]

/-- Writing a key leaves every other key's endpoint unchanged. -/
theorem mapLookup_mapSet_other (m : List (String × Nat)) (k : String) (v : Nat)
    (k' : String) (h : k' ≠ k) :
    mapLookup (mapSet m k v) k' = mapLookup m k' := by
  have hkk : ¬(k = k') := fun he => h he.symm
  induction m with
  | nil => simp [mapSet, mapLookup, hkk]
  | cons p rest ih =>
    by_cases hp : p.1 = k
    · simp only [mapSet, if_pos hp, mapLookup]
      rw [if_neg hkk, hp, if_neg hkk]
    · simp only [mapSet, if_neg hp, mapLookup]
      rw [ih]

/-- C9: in every reachable state of the subscriber registry the keys are
pairwise distinct (at most one active endpoint per key); the invariant is
preserved by each further `Subscribe`, `Unsubscribe` or broadcast; and a
`Subscribe` on any key — registered or not — succeeds, making the key map
to the new endpoint while leaving every other key unchanged. -/
theorem registry_unique_endpoint_invariant (ops : List RegOp) (k : String)
    (ch : Nat) (op : RegOp) :
    ((regState ops).map Prod.fst).Nodup ∧
    ((applyRegOp (regState ops) op).map Prod.fst).Nodup ∧
    mapLookup (mapSet (regState ops) k ch) k = some ch ∧
    (∀ k', k' ≠ k →
      mapLookup (mapSet (regState ops) k ch) k' = mapLookup (regState ops) k') :=
  ⟨nodup_keys_regState ops,
    nodup_keys_applyRegOp _ op (nodup_keys_regState ops),
    mapLookup_mapSet_self _ k ch,
    fun k' h => mapLookup_mapSet_other _ k ch k' h⟩

/-- C9 witness: the invariant theorem applied to the reachable state built
by two subscriptions under the same key followed by a broadcast, a fresh
re-subscription, and an unrelated key query. -/
theorem registry_unique_endpoint_invariant_witness :
    mapLookup
        (mapSet
          (regState [RegOp.subscribeOp "vol-aaaaa" 1,
            RegOp.subscribeOp "vol-aaaaa" 2, RegOp.broadcastOp])
          "vol-aaaaa" 7) "vol-bbbbb" =
      mapLookup
        (regState [RegOp.subscribeOp "vol-aaaaa" 1,
          RegOp.subscribeOp "vol-aaaaa" 2, RegOp.broadcastOp]) "vol-bbbbb" :=
  (registry_unique_endpoint_invariant
      [RegOp.subscribeOp "vol-aaaaa" 1, RegOp.subscribeOp "vol-aaaaa" 2,
        RegOp.broadcastOp] "vol-aaaaa" 7
      (RegOp.unsubscribeOp "vol-aaaaa")).2.2.2 "vol-bbbbb" (by decide)

/-- Structural characterization of the regex denotation: `volRe.FindString`
matches exactly the names whose characters end in `vol-` followed by five
non-newline characters, and the match is that nine-character tail. -/
theorem volSuffixMatch_eq_some_iff (cs t : List Char) :
    volSuffixMatch cs = some t ↔
      ∃ p core : List Char, cs = p ++ volPat ++ core ∧ core.length = 5 ∧
        (∀ c ∈ core, c ≠ '\n') ∧ t = volPat ++ core := by
  constructor
  · intro h
    unfold volSuffixMatch at h
    by_cases h9 : cs.length < 9
    · simp [h9] at h
    · simp only [if_neg h9] at h
      split_ifs at h with hcond
      · have le9 : 9 ≤ cs.length := Nat.le_of_not_lt h9
        have hT : (cs.drop (cs.length - 9)).length = 9 := by
          rw [List.length_drop, Nat.sub_sub_self le9]
        have ht : t = cs.drop (cs.length - 9) := (Option.some_inj.mp h).symm
        refine ⟨cs.take (cs.length - 9), (cs.drop (cs.length - 9)).drop 4,
          ?_, ?_, ?_, ?_⟩
        · rw [← hcond.1, List.append_assoc, List.take_append_drop,
            List.take_append_drop]
        · rw [List.length_drop, hT]
        · intro c hc
          exact of_decide_eq_true (List.all_eq_true.mp hcond.2 c hc)
        · rw [ht, ← hcond.1, List.take_append_drop]
  · rintro ⟨p, core, rfl, hlen, hnl, rfl⟩
    rw [List.append_assoc]
    have hltot : (p ++ (volPat ++ core)).length = p.length + 9 := by
      simp [volPat, hlen]
    have h9 : ¬(p ++ (volPat ++ core)).length < 9 := by omega
    have hsub : (p ++ (volPat ++ core)).length - 9 = p.length := by omega
    have hdrop : (p ++ (volPat ++ core)).drop ((p ++ (volPat ++ core)).length - 9) =
        volPat ++ core := by
      rw [hsub, List.drop_left]
    have htake : (volPat ++ core).take 4 = volPat := by
      have h4 : volPat.length = 4 := rfl
      rw [← h4, List.take_left]
    have hdrop4 : (volPat ++ core).drop 4 = core := by
      have h4 : volPat.length = 4 := rfl
      rw [← h4, List.drop_left]
    simp only [volSuffixMatch]
    rw [if_neg h9, hdrop]
    rw [if_pos]
    refine ⟨htake, ?_⟩
    rw [hdrop4]
    exact List.all_eq_true.mpr fun c hc => decide_eq_true (hnl c hc)

/-- A matched identifier is never the empty character list. -/
theorem volSuffixMatch_ne_nil (cs t : List Char) (h : volSuffixMatch cs = some t) :
    t ≠ [] := by
  rcases (volSuffixMatch_eq_some_iff cs t).mp h with ⟨p, core, _, _, _, rfl⟩
  simp [volPat]

/-- A one-element list filterMap produces a singleton exactly when the
function fires on the element. -/
theorem filterMap_singleton_eq {α β : Type} (f : α → Option β) (a : α) (b : β) :
    List.filterMap f [a] = [b] ↔ f a = some b := by
  cases hfa : f a <;> simp [List.filterMap_cons, hfa]

/-- C5 counterexample: the claim fails on the code.  The non-directory entry
named `vol-!!!!!` contributes the identifier `vol-!!!!!` to the snapshot,
although its trailing five characters are not alphanumeric — the spec-worded
alphanumeric matcher rejects the name. -/
theorem enumerate_contributes_nonalnum_cex :
    enumerateVolumes [⟨"vol-!!!!!", false⟩] = ["vol-!!!!!"] ∧
    specAlnumSuffixMatch ("vol-!!!!!".data) = none := by
  refine ⟨rfl, by decide⟩

/-- C5 (amended): a directory entry contributes a VolumeIdentifier to a
snapshot if and only if the entry is not a directory and the trailing nine
characters of its name are `vol-` followed by exactly five characters, none
of which is a newline (arbitrary otherwise — not restricted to
alphanumerics); the contributed identifier is that trailing match. -/
theorem enumerateVolumes_contribution_iff (d : DirEnt) (m : String) :
    enumerateVolumes [d] = [m] ↔
      (d.isDir = false ∧ ∃ p core : List Char,
        d.name.data = p ++ volPat ++ core ∧ core.length = 5 ∧
        (∀ c ∈ core, c ≠ '\n') ∧ m = ⟨volPat ++ core⟩) := by
  unfold enumerateVolumes
  rw [filterMap_singleton_eq]
  by_cases hd : d.isDir
  · rw [if_pos hd]
    simp only [hd]
    constructor
    · intro h; exact absurd h (by simp)
    · rintro ⟨hfalse, -⟩; exact absurd hfalse (by simp)
  · rw [if_neg hd]
    have hd' : d.isDir = false := by simpa using hd
    simp only [hd', true_and]
    cases hv : volSuffixMatch d.name.data with
    | none =>
      have hfind : volReFindString d.name = "" := by
        unfold volReFindString; rw [hv]
      rw [hfind]
      simp only [ne_eq, not_true_eq_false, reduceIte]
      constructor
      · intro h; exact absurd h (by simp)
      · rintro ⟨p, core, hcs, hlen, hnl, rfl⟩
        have : volSuffixMatch d.name.data = some (volPat ++ core) :=
          (volSuffixMatch_eq_some_iff _ _).mpr ⟨p, core, hcs, hlen, hnl, rfl⟩
        rw [hv] at this
        exact absurd this (by simp)
    | some u =>
      have hfind : volReFindString d.name = ⟨u⟩ := by
        unfold volReFindString; rw [hv]
      have hne : (⟨u⟩ : String) ≠ "" := by
        intro he
        exact volSuffixMatch_ne_nil _ _ hv (congrArg String.data he)
      rw [hfind, if_pos hne]
      rcases (volSuffixMatch_eq_some_iff _ _).mp hv with ⟨p, core, hcs, hlen, hnl, rfl⟩
      constructor
      · intro h
        exact ⟨p, core, hcs, hlen, hnl, (Option.some_inj.mp h).symm⟩
      · rintro ⟨p', core', hcs', hlen', hnl', rfl⟩
        have h1 : volSuffixMatch d.name.data = some (volPat ++ core') :=
          (volSuffixMatch_eq_some_iff _ _).mpr ⟨p', core', hcs', hlen', hnl', rfl⟩
        rw [hv] at h1
        rw [Option.some_inj.mp h1]

/-- C4: when every send succeeds, a `ListAndWatch` stream first sends
exactly one device entry reporting the session's identifier healthy, then —
after acknowledging any number of delivered snapshots that contain the
identifier — the first delivered snapshot not containing it causes exactly
one empty device list to be sent, followed by the acknowledgment, the
unsubscription and a nil (error-free) return; later inputs are never
consumed. -/
theorem listAndWatch_present_then_single_empty_send (volumeID : String)
    (cs : List Completion) (c : Completion) (rest : List LWInput)
    (hcs : ∀ cc ∈ cs, cc.volumes.contains volumeID = true)
    (hc : c.volumes.contains volumeID = false) :
    ListAndWatch volumeID true
        (cs.map (fun cc => LWInput.update (some cc) true) ++
          LWInput.update (some c) true :: rest) =
      LWAction.send (volPresent volumeID) :: LWAction.sub volumeID ::
        ((cs.map fun cc => LWAction.callAck cc.acks) ++
          [LWAction.send volMissing, LWAction.callAck c.acks,
            LWAction.unsub volumeID, LWAction.retNil]) ∧
    (ListAndWatch volumeID true
        (cs.map (fun cc => LWInput.update (some cc) true) ++
          LWInput.update (some c) true :: rest)).countP isEmptySend = 1 ∧
    (ListAndWatch volumeID true
        (cs.map (fun cc => LWInput.update (some cc) true) ++
          LWInput.update (some c) true :: rest)).countP
      (isPresentSend volumeID) = 1 := by
  have hloop : ∀ cs' : List Completion,
      (∀ cc ∈ cs', cc.volumes.contains volumeID = true) →
      lwLoop volumeID
          (cs'.map (fun cc => LWInput.update (some cc) true) ++
            LWInput.update (some c) true :: rest) =
        (cs'.map fun cc => LWAction.callAck cc.acks) ++
          [LWAction.send volMissing, LWAction.callAck c.acks,
            LWAction.unsub volumeID, LWAction.retNil] := by
    intro cs'
    induction cs' with
    | nil =>
      intro _
      simp only [List.map_nil, List.nil_append, lwLoop, Option.getD_some,
        Option.isSome_some, Bool.true_and, hc]
      rfl
    | cons cc cst ih =>
      intro hmem
      have hhd : cc.volumes.contains volumeID = true :=
        hmem cc (List.mem_cons_self cc cst)
      have htl : ∀ x ∈ cst, x.volumes.contains volumeID = true :=
        fun x hx => hmem x (List.mem_cons_of_mem cc hx)
      simp only [List.map_cons, List.cons_append, lwLoop, Option.getD_some,
        Option.isSome_some, Bool.true_and, hhd, if_pos, List.append_eq]
      rw [ih htl]
  have htrace := hloop cs hcs
  have hmain : ListAndWatch volumeID true
      (cs.map (fun cc => LWInput.update (some cc) true) ++
        LWInput.update (some c) true :: rest) =
      LWAction.send (volPresent volumeID) :: LWAction.sub volumeID ::
        ((cs.map fun cc => LWAction.callAck cc.acks) ++
          [LWAction.send volMissing, LWAction.callAck c.acks,
            LWAction.unsub volumeID, LWAction.retNil]) := by
    simp only [ListAndWatch, if_pos]
    rw [htrace]
  refine ⟨hmain, ?_, ?_⟩
  · rw [hmain]
    have hacks : (cs.map fun cc => LWAction.callAck cc.acks).countP isEmptySend = 0 := by
      refine List.countP_eq_zero.mpr ?_
      intro a ha
      rcases List.mem_map.mp ha with ⟨cc, -, rfl⟩
      simp [isEmptySend]
    simp [List.countP_cons, List.countP_append, hacks, isEmptySend,
      volPresent, volMissing]
  · rw [hmain]
    have hacks : (cs.map fun cc => LWAction.callAck cc.acks).countP
        (isPresentSend volumeID) = 0 := by
      refine List.countP_eq_zero.mpr ?_
      intro a ha
      rcases List.mem_map.mp ha with ⟨cc, -, rfl⟩
      simp [isPresentSend]
    simp [List.countP_cons, List.countP_append, hacks, isPresentSend,
      volPresent, volMissing]

/-- C4 witness: the protocol theorem applied to the session `vol-abcde`
that first sees a snapshot containing it and then one without it. -/
theorem listAndWatch_present_then_single_empty_send_witness :
    ListAndWatch "vol-abcde" true
        ([Completion.mk ["vol-abcde"] true].map (fun cc => LWInput.update (some cc) true) ++
          LWInput.update (some (Completion.mk ["vol-fghij"] true)) true :: [LWInput.done true]) =
      LWAction.send (volPresent "vol-abcde") :: LWAction.sub "vol-abcde" ::
        (([Completion.mk ["vol-abcde"] true].map fun cc => LWAction.callAck cc.acks) ++
          [LWAction.send volMissing, LWAction.callAck true,
            LWAction.unsub "vol-abcde", LWAction.retNil]) ∧
    (ListAndWatch "vol-abcde" true
        ([Completion.mk ["vol-abcde"] true].map (fun cc => LWInput.update (some cc) true) ++
          LWInput.update (some (Completion.mk ["vol-fghij"] true)) true ::
            [LWInput.done true])).countP isEmptySend = 1 ∧
    (ListAndWatch "vol-abcde" true
        ([Completion.mk ["vol-abcde"] true].map (fun cc => LWInput.update (some cc) true) ++
          LWInput.update (some (Completion.mk ["vol-fghij"] true)) true ::
            [LWInput.done true])).countP (isPresentSend "vol-abcde") = 1 :=
  listAndWatch_present_then_single_empty_send "vol-abcde"
    [Completion.mk ["vol-abcde"] true] (Completion.mk ["vol-fghij"] true) [LWInput.done true]
    (by decide) (by decide)

/-- Appending one label adds to the dispatch count exactly when the label is
that dispatch. -/
theorem dispatchCount_append_one (n : Nat) (t : List BLabel) (l : BLabel) :
    dispatchCount n (t ++ [l]) =
      dispatchCount n t + (if l = BLabel.dispatch n then 1 else 0) := by
  by_cases hl : l = BLabel.dispatch n
  · simp [dispatchCount, List.countP_append, List.countP_cons, beq_iff_eq, hl]
  · simp [dispatchCount, List.countP_append, List.countP_cons,
      beq_eq_false_iff_ne.mpr hl, hl]

/-- Appending one label adds to the acknowledgment count exactly when the
label is that acknowledgment. -/
theorem ackCount_append_one (n : Nat) (t : List BLabel) (l : BLabel) :
    ackCount n (t ++ [l]) =
      ackCount n t + (if l = BLabel.ack n then 1 else 0) := by
  by_cases hl : l = BLabel.ack n
  · simp [ackCount, List.countP_append, List.countP_cons, beq_iff_eq, hl]
  · simp [ackCount, List.countP_append, List.countP_cons,
      beq_eq_false_iff_ne.mpr hl, hl]

/-- Counting invariant of broadcast executions: every snapshot before the
current one has all its dispatched deliveries acknowledged; for the current
snapshot the outstanding `WaitGroup` counter is exactly the dispatched but
unacknowledged deliveries; snapshots after it have no activity yet. -/
theorem bexec_counts (t : List BLabel) (s : BState) (h : BExec t s) :
    (∀ n, n < s.snap → ackCount n t = dispatchCount n t) ∧
    (ackCount s.snap t + s.pending = dispatchCount s.snap t) ∧
    (∀ n, s.snap < n → dispatchCount n t = 0 ∧ ackCount n t = 0) := by
  induction h with
  | init =>
    refine ⟨fun n hn => by simp [bInit] at hn, ?_, fun n hn => ?_⟩
    · simp [ackCount, dispatchCount, bInit]
    · simp [ackCount, dispatchCount]
  | step t s l s' hexec hstep ih =>
    obtain ⟨ih1, ih2, ih3⟩ := ih
    cases hstep with
    | start k hin =>
      refine ⟨fun n hn => ?_, ?_, fun n hn => ?_⟩
      · simpa [dispatchCount_append_one, ackCount_append_one]
          using ih1 n (by simpa using hn)
      · simpa [dispatchCount_append_one, ackCount_append_one] using ih2
      · simpa [dispatchCount_append_one, ackCount_append_one]
          using ih3 n (by simpa using hn)
    | dispatch hin hr hc =>
      refine ⟨fun n hn => ?_, ?_, fun n hn => ?_⟩
      · have hn' : n < s.snap := by simpa using hn
        have hne : ¬(BLabel.dispatch s.snap = BLabel.dispatch n) := by
          simp; omega
        simpa [dispatchCount_append_one, ackCount_append_one, hne]
          using ih1 n hn'
      · have h1 : dispatchCount s.snap (t ++ [BLabel.dispatch s.snap]) =
            dispatchCount s.snap t + 1 := by
          simp [dispatchCount_append_one]
        have h2 : ackCount s.snap (t ++ [BLabel.dispatch s.snap]) =
            ackCount s.snap t := by
          simp [ackCount_append_one]
        simp only [h1, h2]
        omega
      · have hn' : s.snap < n := by simpa using hn
        have hne : ¬(BLabel.dispatch s.snap = BLabel.dispatch n) := by
          simp; omega
        simpa [dispatchCount_append_one, ackCount_append_one, hne]
          using ih3 n hn'
    | skip hin hr hc =>
      refine ⟨fun n hn => ?_, ?_, fun n hn => ?_⟩
      · simpa [dispatchCount_append_one, ackCount_append_one]
          using ih1 n (by simpa using hn)
      · simpa [dispatchCount_append_one, ackCount_append_one] using ih2
      · simpa [dispatchCount_append_one, ackCount_append_one]
          using ih3 n (by simpa using hn)
    | ack hp =>
      refine ⟨fun n hn => ?_, ?_, fun n hn => ?_⟩
      · have hn' : n < s.snap := by simpa using hn
        have hne : ¬(BLabel.ack s.snap = BLabel.ack n) := by
          simp; omega
        simpa [dispatchCount_append_one, ackCount_append_one, hne]
          using ih1 n hn'
      · have h1 : ackCount s.snap (t ++ [BLabel.ack s.snap]) =
            ackCount s.snap t + 1 := by
          simp [ackCount_append_one]
        have h2 : dispatchCount s.snap (t ++ [BLabel.ack s.snap]) =
            dispatchCount s.snap t := by
          simp [dispatchCount_append_one]
        simp only [h1, h2]
        omega
      · have hn' : s.snap < n := by simpa using hn
        have hne : ¬(BLabel.ack s.snap = BLabel.ack n) := by
          simp; omega
        simpa [dispatchCount_append_one, ackCount_append_one, hne]
          using ih3 n hn'
    | finish hin hr hp =>
      refine ⟨fun n hn => ?_, ?_, fun n hn => ?_⟩
      · have hn' : n < s.snap + 1 := by simpa using hn
        rcases Nat.lt_or_ge n s.snap with hlt | hge
        · simpa [dispatchCount_append_one, ackCount_append_one]
            using ih1 n hlt
        · have heq : n = s.snap := by omega
          subst heq
          have := ih2
          rw [hp] at this
          simpa [dispatchCount_append_one, ackCount_append_one] using this
      · have hgt : s.snap < s.snap + 1 := Nat.lt_succ_self _
        have h3 := ih3 (s.snap + 1) hgt
        have hpend : ({s with inBcast := false, snap := s.snap + 1} : BState).pending
            = 0 := hp
        simp [dispatchCount_append_one, ackCount_append_one, h3.1, h3.2, hpend, hp]
      · have hn' : s.snap + 1 < n := by simpa using hn
        have := ih3 n (by omega)
        simpa [dispatchCount_append_one, ackCount_append_one] using this
    | cancel =>
      refine ⟨fun n hn => ?_, ?_, fun n hn => ?_⟩
      · simpa [dispatchCount_append_one, ackCount_append_one]
          using ih1 n (by simpa using hn)
      · simpa [dispatchCount_append_one, ackCount_append_one] using ih2
      · simpa [dispatchCount_append_one, ackCount_append_one]
          using ih3 n (by simpa using hn)

/-- Any label inside an execution trace was taken by one step from the state
reached by the prefix before it. -/
theorem bexec_mid (t : List BLabel) (s : BState) (h : BExec t s) :
    ∀ (t₁ : List BLabel) (l : BLabel) (t₂ : List BLabel), t = t₁ ++ l :: t₂ →
      ∃ s₁ s₂, BExec t₁ s₁ ∧ BStep s₁ l s₂ := by
  induction h with
  | init =>
    intro t₁ l t₂ heq
    exact absurd heq.symm (by simp)
  | step t s l' s' hexec hstep ih =>
    intro t₁ l t₂ heq
    rcases List.eq_nil_or_concat t₂ with h2 | ⟨t₂', a, h2⟩
    · subst h2
      have := List.append_inj' heq (by rfl)
      obtain ⟨rfl, hl⟩ := this
      obtain rfl : l' = l := by injection hl
      exact ⟨s, s', hexec, hstep⟩
    · subst h2
      have heq' : t ++ [l'] = (t₁ ++ l :: t₂') ++ [a] := by
        simpa [List.concat_eq_append] using heq
      have := List.append_inj' heq' (by rfl)
      obtain ⟨hteq, hl⟩ := this
      exact ih t₁ l t₂' hteq

/-- A step labelled as a dispatch of snapshot `m` starts from a state whose
current snapshot is `m`. -/
theorem bstep_dispatch_inv (s s' : BState) (m : Nat)
    (h : BStep s (BLabel.dispatch m) s') : s.snap = m := by
  generalize hl : BLabel.dispatch m = l at h
  cases h <;> simp_all

/-- A step labelled as a finish of snapshot `m` starts from a state whose
current snapshot is `m` and whose `WaitGroup` counter is zero. -/
theorem bstep_finish_inv (s s' : BState) (m : Nat)
    (h : BStep s (BLabel.finish m) s') : s.snap = m ∧ s.pending = 0 := by
  generalize hl : BLabel.finish m = l at h
  cases h <;> simp_all

/-- C8: the broadcaster blocks until every dispatched delivery of the
current snapshot is acknowledged before resuming — at an `informSubscribers`
return for snapshot `n` the acknowledgment count of `n` over the preceding
trace equals its dispatch count — and consequently no delivery of snapshot
`n+1` is dispatched to any subscriber before every dispatched delivery of
snapshot `n` has been acknowledged. -/
theorem broadcast_blocks_until_all_acked (t₁ t₂ : List BLabel) (s : BState)
    (n : Nat) :
    (BExec (t₁ ++ BLabel.dispatch (n + 1) :: t₂) s →
      ackCount n t₁ = dispatchCount n t₁) ∧
    (BExec (t₁ ++ BLabel.finish n :: t₂) s →
      ackCount n t₁ = dispatchCount n t₁) := by
  constructor
  · intro h
    rcases bexec_mid _ _ h t₁ (BLabel.dispatch (n + 1)) t₂ rfl with
      ⟨s₁, s₂, hex, hstep⟩
    have hsnap : s₁.snap = n + 1 := bstep_dispatch_inv s₁ s₂ (n + 1) hstep
    have hinv := bexec_counts t₁ s₁ hex
    exact hinv.1 n (by omega)
  · intro h
    rcases bexec_mid _ _ h t₁ (BLabel.finish n) t₂ rfl with
      ⟨s₁, s₂, hex, hstep⟩
    have hsnap : s₁.snap = n ∧ s₁.pending = 0 := bstep_finish_inv s₁ s₂ n hstep
    have hinv := bexec_counts t₁ s₁ hex
    have h2 := hinv.2.1
    rw [hsnap.1, hsnap.2] at h2
    simpa using h2

/-- C8 witness: the ordering theorem applied to the concrete execution that
broadcasts snapshot 0 to one subscriber, waits for its acknowledgment,
finishes, and then dispatches snapshot 1. -/
theorem broadcast_blocks_until_all_acked_witness :
    ackCount 0 [BLabel.start 0 1, BLabel.dispatch 0, BLabel.ack 0,
        BLabel.finish 0, BLabel.start 1 1] =
      dispatchCount 0 [BLabel.start 0 1, BLabel.dispatch 0, BLabel.ack 0,
        BLabel.finish 0, BLabel.start 1 1] := by
  have h0 : BExec [] bInit := BExec.init
  have h1 : BExec [BLabel.start 0 1] ⟨0, 1, 0, true, false⟩ :=
    BExec.step [] bInit (BLabel.start 0 1) ⟨0, 1, 0, true, false⟩ h0
      (BStep.start bInit 1 rfl)
  have h2 : BExec [BLabel.start 0 1, BLabel.dispatch 0] ⟨0, 0, 1, true, false⟩ :=
    BExec.step _ _ (BLabel.dispatch 0) _ h1
      (BStep.dispatch ⟨0, 1, 0, true, false⟩ rfl (by decide) rfl)
  have h3 : BExec [BLabel.start 0 1, BLabel.dispatch 0, BLabel.ack 0]
      ⟨0, 0, 0, true, false⟩ :=
    BExec.step _ _ (BLabel.ack 0) _ h2
      (BStep.ack ⟨0, 0, 1, true, false⟩ (by decide))
  have h4 : BExec [BLabel.start 0 1, BLabel.dispatch 0, BLabel.ack 0,
      BLabel.finish 0] ⟨1, 0, 0, false, false⟩ :=
    BExec.step _ _ (BLabel.finish 0) _ h3
      (BStep.finish ⟨0, 0, 0, true, false⟩ rfl rfl rfl)
  have h5 : BExec [BLabel.start 0 1, BLabel.dispatch 0, BLabel.ack 0,
      BLabel.finish 0, BLabel.start 1 1] ⟨1, 1, 0, true, false⟩ :=
    BExec.step _ _ (BLabel.start 1 1) _ h4
      (BStep.start ⟨1, 0, 0, false, false⟩ 1 rfl)
  have h6 : BExec ([BLabel.start 0 1, BLabel.dispatch 0, BLabel.ack 0,
      BLabel.finish 0, BLabel.start 1 1] ++ BLabel.dispatch (0 + 1) :: [])
      ⟨1, 0, 1, true, false⟩ :=
    BExec.step _ _ (BLabel.dispatch 1) _ h5
      (BStep.dispatch ⟨1, 1, 0, true, false⟩ rfl (by decide) rfl)
  exact (broadcast_blocks_until_all_acked
    [BLabel.start 0 1, BLabel.dispatch 0, BLabel.ack 0, BLabel.finish 0,
      BLabel.start 1 1] [] ⟨1, 0, 1, true, false⟩ 0).1 h6
